import Mathlib

/-!
# Verification of the forgebase contract-ABI resolution pipeline

This file embeds the `getContract` Express handler (tiered ABI resolution:
Tier 1 verified-ABI lookup via the explorer API with proxy substitution,
Tier 2 heuristic bytecode-selector recovery via the signature registry) as
pure Lean functions, together with the external world it interacts with,
and proves the specification's claims about it.

The embedding models each external HTTP interaction as an oracle describing
that request's outcome, and threads an explicit log of issued network calls
so that "no network call occurs" properties are statable.
-/

/-! ## JSON values

The handler stores a verified ABI as the raw result of `JSON.parse` and
returns it untouched.  We model the JSON universe as an inductive value
type with an executable serializer and parser.  The model covers the JSON
fragment relevant to ABI payloads: numbers are integers (no floats), the
parser accepts compact documents (no inter-token whitespace), and inside
strings any escaped character stands for itself (the serializer emits only
the two escapes `\"` and `\\`, which mean themselves).
-/

inductive JsonValue where
  | null : JsonValue
  | bool : Bool → JsonValue
  | num : Int → JsonValue
  | str : String → JsonValue
  | arr : List JsonValue → JsonValue
  | obj : List (String × JsonValue) → JsonValue

/-- The opening-brace character, written via its code point. -/
def lbrace : Char := Char.ofNat 123

/-- The closing-brace character, written via its code point. -/
def rbrace : Char := Char.ofNat 125

/-- Escape one character for a JSON string literal: quote and backslash
are prefixed with a backslash, everything else is kept verbatim. -/
def escapeChar (c : Char) : List Char :=
  if c = '"' ∨ c = '\\' then ['\\', c] else [c]

/-- Escape a character list for a JSON string literal. -/
def escapeChars (cs : List Char) : List Char :=
  match cs with
  | [] => []
  | c :: rest => escapeChar c ++ escapeChars rest

/-- The decimal digit character for `d < 10`. -/
def digitToChar (d : Nat) : Char := Char.ofNat (48 + d)

/-- Decimal digit characters of a natural number, most significant first. -/
def natChars (m : Nat) : List Char :=
  if m = 0 then ['0'] else ((Nat.digits 10 m).reverse.map digitToChar)

/-- Decimal characters of an integer (minus sign for negatives). -/
def intChars (n : Int) : List Char :=
  if n < 0 then '-' :: natChars n.natAbs else natChars n.toNat

mutual
/-- Compact JSON serialization of a value, as a character list. -/
def serChars : JsonValue → List Char
  | .null => 'n' :: ['u', 'l', 'l']
  | .bool b => if b then 't' :: ['r', 'u', 'e'] else 'f' :: ['a', 'l', 's', 'e']
  | .num n => intChars n
  | .str s => '"' :: (escapeChars s.data ++ ['"'])
  | .arr xs => '[' :: (serElemsSep xs ++ [']'])
  | .obj fs => lbrace :: (serMembersSep fs ++ [rbrace])

/-- Comma-separated serialization of array elements. -/
def serElemsSep : List JsonValue → List Char
  | [] => []
  | [x] => serChars x
  | x :: y :: t => serChars x ++ (',' :: serElemsSep (y :: t))

/-- Comma-separated serialization of object members. -/
def serMembersSep : List (String × JsonValue) → List Char
  | [] => []
  | [(k, v)] => serMember k v
  | (k, v) :: m :: t => serMember k v ++ (',' :: serMembersSep (m :: t))

/-- Serialization of one object member. -/
def serMember (k : String) (v : JsonValue) : List Char :=
  '"' :: (escapeChars k.data ++ ('"' :: (':' :: serChars v)))
end

/-- JSON serialization of a value, as a string. -/
def serializeJson (j : JsonValue) : String := String.mk (serChars j)

/-- Parse the body of a JSON string literal (after the opening quote) up to
its closing quote; an escaped character stands for itself. -/
def parseStrChars : List Char → Option (List Char × List Char)
  | [] => none
  | c :: rest =>
    if c = '"' then some ([], rest)
    else if c = '\\' then
      match rest with
      | [] => none
      | e :: rest2 =>
        match parseStrChars rest2 with
        | some p => some (e :: p.1, p.2)
        | none => none
    else
      match parseStrChars rest with
      | some p => some (c :: p.1, p.2)
      | none => none

/-- Parse a maximal nonempty run of decimal digits into a natural number. -/
def parseNatChars (cs : List Char) : Option (Nat × List Char) :=
  let ds := cs.takeWhile Char.isDigit
  if ds.isEmpty then none
  else some (Nat.ofDigits 10 ((ds.map fun c => c.toNat - 48).reverse), cs.dropWhile Char.isDigit)

/-- Parsing modes of the JSON parser: a single value, the tail of an array
(elements up to `]`), or the tail of an object (members up to the closing
brace). -/
inductive PMode where
  | val : PMode
  | elems : PMode
  | members : PMode

/-- Parser outputs, one per parsing mode. -/
inductive POut where
  | v : JsonValue → POut
  | es : List JsonValue → POut
  | ms : List (String × JsonValue) → POut

/-- Fuel-indexed JSON parser core.  The fuel bounds nesting work; every
recursive call decreases it, so the function is structurally recursive and
computable by reduction. -/
def parseCore : Nat → PMode → List Char → Option (POut × List Char)
  | 0, _, _ => none
  | _ + 1, .val, [] => none
  | fuel + 1, .val, c :: r =>
    if c = 'n' then
      match r with
      | 'u' :: 'l' :: 'l' :: r2 => some (.v .null, r2)
      | _ => none
    else if c = 't' then
      match r with
      | 'r' :: 'u' :: 'e' :: r2 => some (.v (.bool true), r2)
      | _ => none
    else if c = 'f' then
      match r with
      | 'a' :: 'l' :: 's' :: 'e' :: r2 => some (.v (.bool false), r2)
      | _ => none
    else if c = '"' then
      match parseStrChars r with
      | some p => some (.v (.str (String.mk p.1)), p.2)
      | none => none
    else if c = '[' then
      if r.head? = some ']' then some (.v (.arr []), r.tail)
      else
        match parseCore fuel .elems r with
        | some (.es l, r2) => some (.v (.arr l), r2)
        | _ => none
    else if c = lbrace then
      if r.head? = some rbrace then some (.v (.obj []), r.tail)
      else
        match parseCore fuel .members r with
        | some (.ms l, r2) => some (.v (.obj l), r2)
        | _ => none
    else if c = '-' then
      match parseNatChars r with
      | some p => some (.v (.num (-(p.1 : Int))), p.2)
      | none => none
    else if c.isDigit then
      match parseNatChars (c :: r) with
      | some p => some (.v (.num (p.1 : Int)), p.2)
      | none => none
    else none
  | fuel + 1, .elems, cs =>
    match parseCore fuel .val cs with
    | some (.v j, ',' :: r2) =>
      match parseCore fuel .elems r2 with
      | some (.es l, r3) => some (.es (j :: l), r3)
      | _ => none
    | some (.v j, ']' :: r2) => some (.es [j], r2)
    | _ => none
  | fuel + 1, .members, cs =>
    match cs with
    | c :: r =>
      if c = '"' then
        match parseStrChars r with
        | some (k, ':' :: r2) =>
          match parseCore fuel .val r2 with
          | some (.v v, d :: r3) =>
            if d = ',' then
              match parseCore fuel .members r3 with
              | some (.ms l, r4) => some (.ms ((String.mk k, v) :: l), r4)
              | _ => none
            else if d = rbrace then some (.ms [(String.mk k, v)], r3)
            else none
          | _ => none
        | _ => none
      else none
    | [] => none

/-- Embedding of `JSON.parse` restricted to the modeled JSON fragment: the
whole input must be consumed by a single value. -/
def parseJson (s : String) : Option JsonValue :=
  match parseCore (s.data.length + 1) .val s.data with
  | some (.v j, []) => some j
  | _ => none

/-! ## Data model of the handler

Embedding of `getContract` (src/unnamed/part_000, lines 31–255).  Each
external HTTP interaction of one request is modeled as an oracle in a
`World` value; the handler is a pure function of the query and the world,
additionally returning the ordered list of network calls it issued.
-/

/-- Outcome of one explorer `getabi` fetch (used both for the queried
address and, on proxy detection, for the implementation address).
`fetchErr` models the fetch promise rejecting, `notOk` a response with
`response.ok` false, `badJson` a body that `response.json()` cannot parse,
and `ok` carries the decoded `EtherscanResponse` fields, with a missing or
null `result` folded into the empty string (both are falsy). -/
inductive ApiOutcome where
  | fetchErr : ApiOutcome
  | notOk : ApiOutcome
  | badJson : ApiOutcome
  | ok : String → String → String → ApiOutcome
deriving DecidableEq

/-- One entry of the explorer `getsourcecode` result array
(`EtherscanSourceCode`, lines 37–43). -/
structure SourceCodeEntry where
  ContractName : String
  Proxy : String
  Implementation : String
deriving DecidableEq

/-- Outcome of the explorer `getsourcecode` fetch.  A non-array `result`
behaves exactly like an empty array (the `Array.isArray` guard fails and
the block is skipped), so it is folded into `ok` with `[]`. -/
inductive SourceOutcome where
  | fetchErr : SourceOutcome
  | notOk : SourceOutcome
  | badJson : SourceOutcome
  | ok : String → List SourceCodeEntry → SourceOutcome
deriving DecidableEq

/-- Outcome of the `eth_getCode` JSON-RPC call.  `fetchErr` covers both a
rejected fetch and an unparsable body; `ok` carries `codeData?.result`,
with `none` for a missing or null field.  (`response.ok` is never checked
on this call in the source.) -/
inductive RpcOutcome where
  | fetchErr : RpcOutcome
  | ok : Option String → RpcOutcome
deriving DecidableEq

/-- One candidate of a 4byte.directory signature lookup (the `id` and
`text_signature` fields actually used by the handler). -/
structure SigResult where
  id : Nat
  text_signature : String
deriving DecidableEq

/-- Outcome of one 4byte.directory lookup.  `notOk` is an HTTP response
with `ok` false (the handler returns `null` for it), `fetchErr` a rejected
fetch or unparsable body (caught, placeholder), and `ok` carries the
`results` array, with a missing field folded into `[]` (both fail the
`results && results.length > 0` guard identically). -/
inductive SigOutcome where
  | fetchErr : SigOutcome
  | notOk : SigOutcome
  | ok : List SigResult → SigOutcome
deriving DecidableEq

/-- Whether a registry lookup outcome is a non-success HTTP response. -/
def SigOutcome.isNotOk : SigOutcome → Bool
  | .notOk => true
  | _ => false

/-- The external world of one request: the outcome of every network call
the handler could issue.  The explorer `getabi` oracle is keyed by the
address queried (the proxy-implementation fetch hits the same endpoint
with a different address), the signature registry by the hex selector. -/
structure World where
  abiApi : String → ApiOutcome
  sourceApi : String → SourceOutcome
  rpc : String → RpcOutcome
  fourByte : String → SigOutcome

/-- A network call record, for stating "no network call occurs". -/
inductive NetCall where
  | explorerAbi : String → NetCall
  | explorerSource : String → NetCall
  | rpcGetCode : String → NetCall
  | fourByte : String → NetCall
deriving DecidableEq

/-- The raw request query (`req.query`): the address string and the
optional raw network string. -/
structure ContractQuery where
  address : String
  network : Option String

/-- The validated network enumeration. -/
inductive Network where
  | mainnet : Network
  | testnet : Network
deriving DecidableEq

/-- One input of a recovered function descriptor: the verbatim (trimmed)
type string and the always-empty name (line 192). -/
structure AbiInput where
  type : String
  name : String
deriving DecidableEq

/-- A recovered function descriptor as built by `fetchSignature`
(lines 189–195 and 202–208): `type` is always `"function"` and
`stateMutability` always `"nonpayable"`. -/
structure FunctionDescriptor where
  type : String
  name : String
  inputs : List AbiInput
  stateMutability : String
  selector : String
deriving DecidableEq

/-- The `abi` field of a success response: the raw parsed JSON for the
verified tier, or the list of recovered descriptors for the recovery
tier. -/
inductive AbiPayload where
  | json : JsonValue → AbiPayload
  | recovered : List FunctionDescriptor → AbiPayload

/-- The `data` object of a 200 response.  `isRecovered` is present (and
true) only on the recovery tier. -/
structure SuccessData where
  address : String
  name : String
  abi : AbiPayload
  isVerified : Bool
  isRecovered : Option Bool

/-- The handler's response: 200 success, 400 validation rejection
(`success:false`, error "Invalid request", with field details), 404
exhaustion (`success:false`, code `REQUIRE_MANUAL_ABI`), or 500. -/
inductive ContractResponse where
  | success : SuccessData → ContractResponse
  | invalidRequest : ContractResponse
  | requireManualAbi : ContractResponse
  | internalError : String → ContractResponse

/-- HTTP status code of a response. -/
def ContractResponse.httpStatus : ContractResponse → Nat
  | .success _ => 200
  | .invalidRequest => 400
  | .requireManualAbi => 404
  | .internalError _ => 500

/-- The `success` boolean of the response body. -/
def ContractResponse.successFlag : ContractResponse → Bool
  | .success _ => true
  | _ => false

/-- The machine-readable `code` field of the response body, when present. -/
def ContractResponse.errorCode : ContractResponse → Option String
  | .requireManualAbi => some "REQUIRE_MANUAL_ABI"
  | _ => none

/-- The `error` message of the response body, when present. -/
def ContractResponse.errorMessage : ContractResponse → Option String
  | .invalidRequest => some "Invalid request"
  | .requireManualAbi => some "Contract not verified and recovery failed"
  | .internalError m => some m
  | .success _ => none

/-! ## Validation (the zod schema, lines 31–34) -/

/-- One character of the address body: the regex class `[a-fA-F0-9]`. -/
def isHexDigitAnyCase (c : Char) : Bool :=
  c.isDigit || ('a' ≤ c && c ≤ 'f') || ('A' ≤ c && c ≤ 'F')

/-- The address validation regex `^0x[a-fA-F0-9]{40}$` of
`getContractSchema`, over the character list. -/
def validAddressChars : List Char → Bool
  | a :: b :: core => a = '0' && b = 'x' && core.length = 40 && core.all isHexDigitAnyCase
  | _ => false

/-- The address validation regex `^0x[a-fA-F0-9]{40}$` of
`getContractSchema`. -/
def validAddress (s : String) : Bool := validAddressChars s.data

/-- The network field: `z.enum(['mainnet','testnet']).optional()
.default('mainnet')`. -/
def parseNetwork : Option String → Option Network
  | none => some .mainnet
  | some s =>
    if s = "mainnet" then some .mainnet
    else if s = "testnet" then some .testnet
    else none

/-- `getContractSchema.parse(req.query)`: `none` models the thrown
`ZodError`. -/
def validateQuery (q : ContractQuery) : Option (String × Network) :=
  if validAddress q.address then
    match parseNetwork q.network with
    | some n => some (q.address, n)
    | none => none
  else none

/-- The Etherscan V2 chain id for a network (line 51). -/
def chainIdOf : Network → String
  | .testnet => "84532"
  | .mainnet => "8453"

/-! ## Selector extraction (lines 157–167)

The handler scans the bytecode string with the global regex
`/63([0-9a-fA-F]{8})/g`, giving the non-overlapping left-to-right matches,
then maps each 10-character match `m` to `'0x' + m.slice(2)` (casing
preserved) and deduplicates with a JS `Set` (exact string equality,
insertion order, first occurrence kept).
-/

/-- Fuel-indexed regex scan; the fuel only bounds the number of steps
(each step consumes at least one character), keeping the recursion
structural. -/
def scanCore : Nat → List Char → List (List Char)
  | 0, _ => []
  | _ + 1, [] => []
  | fuel + 1, c :: rest =>
    if c = '6' then
      match rest with
      | '3' :: a :: b :: d1 :: d2 :: e1 :: e2 :: f1 :: f2 :: t =>
        if [a, b, d1, d2, e1, e2, f1, f2].all isHexDigitAnyCase then
          ('6' :: '3' :: a :: b :: d1 :: d2 :: e1 :: e2 :: f1 :: [f2]) :: scanCore fuel t
        else scanCore fuel rest
      | _ => scanCore fuel rest
    else scanCore fuel rest

/-- All non-overlapping left-to-right matches of `63` followed by exactly
eight characters of the class `[0-9a-fA-F]`, as the regex engine finds
them.  Since every step of `scanCore` consumes at least one character,
fuel equal to the input length never runs out. -/
def scanMatches (cs : List Char) : List (List Char) := scanCore cs.length cs

/-- Insert a string into a JS-`Set`-style accumulator: kept out if already
present, appended otherwise. -/
def insertUnique (acc : List String) (x : String) : List String :=
  if x ∈ acc then acc else acc ++ [x]

/-- `[...new Set(list)]`: insertion-order deduplication by exact string
equality. -/
def jsSetList (l : List String) : List String := l.foldl insertUnique []

/-- `extractSelectors`: the deduplicated selector strings
`'0x' + m.slice(2)` of all regex matches in the bytecode (lines 162–163). -/
def extractSelectors (bytecode : String) : List String :=
  jsSetList ((scanMatches bytecode.data).map fun m => String.mk ('0' :: 'x' :: m.drop 2))

/-! ## Signature resolution (lines 175–209) -/

/-- Insert a candidate into a list sorted by ascending `id`, before any
equal-id element already present. -/
def insertById (x : SigResult) : List SigResult → List SigResult
  | [] => [x]
  | y :: ys => if x.id ≤ y.id then x :: y :: ys else y :: insertById x ys

/-- The stable ascending-`id` sort performed by
`results.sort((a, b) => a.id - b.id)` (line 182). -/
def sortById : List SigResult → List SigResult
  | [] => []
  | x :: xs => insertById x (sortById xs)

/-- Split a character list at every comma, like `String.split(',')` with a
single-character separator. -/
def splitCommaChars : List Char → List (List Char)
  | [] => [[]]
  | c :: rest =>
    if c = ',' then [] :: splitCommaChars rest
    else
      match splitCommaChars rest with
      | [] => [[c]]
      | g :: gs => (c :: g) :: gs

/-- Strip leading and trailing whitespace, like `String.trim()`. -/
def trimChars (cs : List Char) : List Char :=
  ((cs.dropWhile Char.isWhitespace).reverse.dropWhile Char.isWhitespace).reverse

/-- A character of the regex class `[a-zA-Z0-9_]`. -/
def isWordChar (c : Char) : Bool := c.isAlphanum || c = '_'

/-- The anchored regex match `^([a-zA-Z0-9_]+)\((.*)\)$` of line 185:
group 1 is the maximal nonempty word-character prefix, which must be
followed immediately by `(`; the string must end in `)`; group 2 is
everything in between and may not contain a line terminator (`.` does not
match one). -/
def parseSigText (s : String) : Option (String × List String) :=
  let w := s.data.takeWhile isWordChar
  let rest := s.data.dropWhile isWordChar
  if w.isEmpty then none
  else
    match rest with
    | '(' :: rest2 =>
      match rest2.getLast? with
      | some ')' =>
        let mid := rest2.dropLast
        if mid.all fun c => ¬(c = '\n' ∨ c = '\r') then
          some (String.mk w,
            if mid.isEmpty then []
            else (splitCommaChars mid).map String.mk)
        else none
      | _ => none
    | _ => none

/-- The placeholder descriptor returned when no usable signature is found
(lines 202–208): named `unknown_` plus the selector's hex digits, empty
inputs, `nonpayable`. -/
def placeholderDescriptor (selector : String) : FunctionDescriptor :=
  { type := "function"
    name := "unknown_" ++ String.mk (selector.data.drop 2)
    inputs := []
    stateMutability := "nonpayable"
    selector := selector }

/-- Build the descriptor from the chosen signature text (lines 185–196):
a successful regex match yields a resolved descriptor with verbatim
trimmed argument types and empty input names; a failed match falls through
to the placeholder. -/
def descriptorFromText (selector : String) (text : String) : FunctionDescriptor :=
  match parseSigText text with
  | some (name, args) =>
    { type := "function"
      name := name
      inputs := args.map fun t => { type := String.mk (trimChars t.data), name := "" }
      stateMutability := "nonpayable"
      selector := selector }
  | none => placeholderDescriptor selector

/-- `fetchSignature` (lines 175–209).  A rejected fetch or unparsable body
is caught and falls through to the placeholder; a non-success HTTP
response returns `null` (modeled as `none`) **before** the placeholder
fallback; a success response picks the lowest-`id` candidate's text, and
zero candidates or an unparsable text degrade to the placeholder. -/
def fetchSignature (w : World) (selector : String) : Option FunctionDescriptor :=
  match w.fourByte selector with
  | .notOk => none
  | .fetchErr => some (placeholderDescriptor selector)
  | .ok results =>
    match sortById results with
    | [] => some (placeholderDescriptor selector)
    | best :: _ => some (descriptorFromText selector best.text_signature)

/-! ## The two tiers and the handler (lines 46–255) -/

/-- The contract-name-and-proxy enrichment block (lines 76–109): a single
`try` whose `catch` only logs, so every mutation made before a failure is
kept.  Returns the final `(contractName, abi)` pair together with the
network calls issued inside the block. -/
def enrich (w : World) (address : String) (abi0 : JsonValue) :
    (String × JsonValue) × List NetCall :=
  match w.sourceApi address with
  | .fetchErr => (("Unknown Contract", abi0), [.explorerSource address])
  | .notOk => (("Unknown Contract", abi0), [.explorerSource address])
  | .badJson => (("Unknown Contract", abi0), [.explorerSource address])
  | .ok status result =>
    match result with
    | [] => (("Unknown Contract", abi0), [.explorerSource address])
    | entry :: _ =>
      if status = "1" then
        let name1 := if entry.ContractName = "" then "Unknown Contract" else entry.ContractName
        if entry.Proxy = "1" ∧ entry.Implementation ≠ "" then
          let calls := [NetCall.explorerSource address, .explorerAbi entry.Implementation]
          match w.abiApi entry.Implementation with
          | .fetchErr => ((name1, abi0), calls)
          | .notOk => ((name1, abi0), calls)
          | .badJson => ((name1, abi0), calls)
          | .ok istatus _ iresult =>
            if istatus = "1" ∧ iresult ≠ "" then
              match parseJson iresult with
              | some implAbi => ((name1 ++ " (Proxy)", implAbi), calls)
              | none => ((name1, abi0), calls)
            else ((name1, abi0), calls)
        else ((name1, abi0), [.explorerSource address])
      else (("Unknown Contract", abi0), [.explorerSource address])

/-- Tier 1 (lines 54–121): the explorer `getabi` call, ABI JSON parse, and
best-effort enrichment.  `none` models the `tier1Error` caught at
line 122. -/
def attemptVerified (w : World) (address : String) :
    Option SuccessData × List NetCall :=
  match w.abiApi address with
  | .fetchErr => (none, [.explorerAbi address])
  | .notOk => (none, [.explorerAbi address])
  | .badJson => (none, [.explorerAbi address])
  | .ok status _ result =>
    if status = "1" ∧ result ≠ "" then
      match parseJson result with
      | none => (none, [.explorerAbi address])
      | some abi0 =>
        let e := enrich w address abi0
        (some { address := address
                name := e.1.1
                abi := .json e.1.2
                isVerified := true
                isRecovered := none },
         .explorerAbi address :: e.2)
    else (none, [.explorerAbi address])

/-- Tier 2 (lines 127–225): bytecode fetch, selector extraction, and the
`Promise.all` fan-out over `fetchSignature` with the `null` filter.
`none` models the `tier2Error` caught at line 227. -/
def attemptRecovery (w : World) (address : String) :
    Option SuccessData × List NetCall :=
  match w.rpc address with
  | .fetchErr => (none, [.rpcGetCode address])
  | .ok bytecodeOpt =>
    match bytecodeOpt with
    | none => (none, [.rpcGetCode address])
    | some bytecode =>
      if bytecode = "" ∨ bytecode = "0x" then (none, [.rpcGetCode address])
      else
        let uniqueSelectors := extractSelectors bytecode
        if uniqueSelectors.isEmpty then (none, [.rpcGetCode address])
        else
          let results := uniqueSelectors.map fun sel => fetchSignature w sel
          let recoveredAbi := results.filterMap id
          (some { address := address
                  name := "Unverified Contract (Recovered)"
                  abi := .recovered recoveredAbi
                  isVerified := false
                  isRecovered := some true },
           .rpcGetCode address :: uniqueSelectors.map .fourByte)

/-- The `getContract` handler (lines 46–255): validation, then Tier 1,
then Tier 2, then the terminal 404.  Returns the response together with
the ordered list of network calls issued.  The outer 500 branch is
unreachable in this total embedding, since every modeled failure is one of
the caught taxonomy cases. -/
def getContract (w : World) (q : ContractQuery) :
    ContractResponse × List NetCall :=
  match validateQuery q with
  | none => (.invalidRequest, [])
  | some (address, _network) =>
    match attemptVerified w address with
    | (some data, log1) => (.success data, log1)
    | (none, log1) =>
      match attemptRecovery w address with
      | (some data, log2) => (.success data, log1 ++ log2)
      | (none, log2) => (.requireManualAbi, log1 ++ log2)

/-! ## Round-trip of the JSON model

Serializing any `JsonValue` and re-parsing it recovers the value.  This
backs the round-trip half of the verified-ABI claim.
-/

mutual
/-- Structural size of a JSON value, used as a fuel bound. -/
def jsize : JsonValue → Nat
  | .null => 1
  | .bool _ => 1
  | .num _ => 1
  | .str _ => 1
  | .arr xs => 1 + jsizeL xs
  | .obj fs => 1 + jsizeF fs

/-- Structural size of an element list. -/
def jsizeL : List JsonValue → Nat
  | [] => 0
  | x :: xs => jsize x + jsizeL xs + 1

/-- Structural size of a member list. -/
def jsizeF : List (String × JsonValue) → Nat
  | [] => 0
  | (_, v) :: fs => jsize v + jsizeF fs + 1
end

theorem jsize_pos : ∀ j, 1 ≤ jsize j := by
  intro j
  cases j <;> simp [jsize]

theorem jsizeL_pos (x : JsonValue) (xs : List JsonValue) : 1 ≤ jsizeL (x :: xs) := by
  simp [jsizeL]

theorem jsizeF_pos (k : String) (v : JsonValue) (fs : List (String × JsonValue)) :
    1 ≤ jsizeF ((k, v) :: fs) := by
  simp [jsizeF]

/-- Whether a character list starts with a decimal digit. -/
def digitStart : List Char → Bool
  | [] => false
  | c :: _ => c.isDigit

theorem parseStrChars_roundtrip :
    ∀ (s rest : List Char), parseStrChars (escapeChars s ++ '"' :: rest) = some (s, rest) := by
  intro s
  induction s with
  | nil =>
    intro rest
    show parseStrChars ('"' :: rest) = some ([], rest)
    rw [parseStrChars.eq_def]
    simp
  | cons c s ih =>
    intro rest
    by_cases hc : c = '"' ∨ c = '\\'
    · simp only [escapeChars, escapeChar, if_pos hc, List.cons_append, List.append_assoc,
        List.nil_append]
      rw [parseStrChars.eq_def]
      have h1 : ('\\' : Char) ≠ '"' := by decide
      simp [h1, ih rest]
    · have hq : ¬(c = '"' ∨ c = '\\') := hc
      push_neg at hc
      simp only [escapeChars, escapeChar, if_neg hq, List.cons_append, List.nil_append]
      rw [parseStrChars.eq_def]
      simp [hc.1, hc.2, ih rest]

theorem digitToChar_isDigit {d : Nat} (h : d < 10) : (digitToChar d).isDigit = true := by
  interval_cases d <;> decide

theorem digitToChar_dec {d : Nat} (h : d < 10) : (digitToChar d).toNat - 48 = d := by
  interval_cases d <;> decide

theorem natChars_ne_nil (m : Nat) : natChars m ≠ [] := by
  unfold natChars
  by_cases hm : m = 0
  · simp [hm]
  · simp [hm, Nat.digits_ne_nil_iff_ne_zero.mpr hm]

theorem natChars_all_digit (m : Nat) : ∀ c ∈ natChars m, c.isDigit = true := by
  unfold natChars
  by_cases hm : m = 0
  · simp [hm]
  · rw [if_neg hm]
    intro c hc
    rw [List.mem_map] at hc
    obtain ⟨d, hd, rfl⟩ := hc
    rw [List.mem_reverse] at hd
    exact digitToChar_isDigit (Nat.digits_lt_base (by norm_num) hd)

theorem natChars_dec (m : Nat) :
    Nat.ofDigits 10 (((natChars m).map fun c => c.toNat - 48).reverse) = m := by
  unfold natChars
  by_cases hm : m = 0
  · simp [hm]
  · rw [if_neg hm, List.map_map, List.map_reverse, List.reverse_reverse]
    have hmap : (Nat.digits 10 m).map ((fun c => c.toNat - 48) ∘ digitToChar) =
        (Nat.digits 10 m).map id := by
      refine List.map_congr_left ?_
      intro d hd
      exact digitToChar_dec (Nat.digits_lt_base (by norm_num) hd)
    rw [hmap, List.map_id]
    exact Nat.ofDigits_digits 10 m

theorem takeWhile_append_all {p : Char → Bool} :
    ∀ (l r : List Char), (∀ c ∈ l, p c = true) → (∀ c, r.head? = some c → p c = false) →
      (l ++ r).takeWhile p = l ∧ (l ++ r).dropWhile p = r := by
  intro l
  induction l with
  | nil =>
    intro r _ hr
    cases r with
    | nil => simp
    | cons c t => simp [List.takeWhile, List.dropWhile, hr c rfl]
  | cons a l ih =>
    intro r hl hr
    have ha := hl a (List.mem_cons_self a l)
    have := ih r (fun c hc => hl c (List.mem_cons_of_mem a hc)) hr
    simp [List.takeWhile, List.dropWhile, ha, this.1, this.2]

theorem parseNatChars_roundtrip (m : Nat) (rest : List Char)
    (hrest : digitStart rest = false) :
    parseNatChars (natChars m ++ rest) = some (m, rest) := by
  have hr : ∀ c, rest.head? = some c → c.isDigit = false := by
    intro c hc
    cases rest with
    | nil => simp at hc
    | cons d t =>
      simp at hc
      subst hc
      simpa [digitStart] using hrest
  obtain ⟨htake, hdrop⟩ := takeWhile_append_all (natChars m) rest (natChars_all_digit m) hr
  unfold parseNatChars
  simp only [htake, hdrop, List.isEmpty_iff, natChars_ne_nil m, if_neg, natChars_dec m,
    ne_eq, not_false_eq_true]

theorem stringMk_data (s : String) : String.mk s.data = s := by
  cases s
  rfl

theorem natChars_cons (m : Nat) :
    ∃ d ds, natChars m = d :: ds ∧ d.isDigit = true := by
  cases h : natChars m with
  | nil => exact absurd h (natChars_ne_nil m)
  | cons d ds =>
    refine ⟨d, ds, rfl, ?_⟩
    have := natChars_all_digit m d
    rw [h] at this
    exact this (List.mem_cons_self d ds)

theorem isDigit_ne {c : Char} (h : c.isDigit = true) :
    c ≠ 'n' ∧ c ≠ 't' ∧ c ≠ 'f' ∧ c ≠ '"' ∧ c ≠ '[' ∧ c ≠ lbrace ∧ c ≠ '-' := by
  refine ⟨?_, ?_, ?_, ?_, ?_, ?_, ?_⟩ <;>
    (rintro rfl; exact absurd h (by decide))

theorem isDigit_ne_close {c : Char} (h : c.isDigit = true) :
    c ≠ ']' ∧ c ≠ rbrace ∧ c ≠ ',' := by
  refine ⟨?_, ?_, ?_⟩ <;> (rintro rfl; exact absurd h (by decide))

theorem serChars_head (j : JsonValue) :
    ∃ c t, serChars j = c :: t ∧ c ≠ ']' ∧ c ≠ rbrace ∧ c ≠ ',' := by
  cases j with
  | null => exact ⟨'n', ['u', 'l', 'l'], by simp [serChars], by decide, by decide, by decide⟩
  | bool b =>
    cases b with
    | true => exact ⟨'t', ['r', 'u', 'e'], by simp [serChars], by decide, by decide, by decide⟩
    | false =>
      exact ⟨'f', ['a', 'l', 's', 'e'], by simp [serChars], by decide, by decide, by decide⟩
  | num n =>
    by_cases hn : n < 0
    · exact ⟨'-', natChars n.natAbs, by simp [serChars, intChars, hn], by decide, by decide,
        by decide⟩
    · obtain ⟨d, ds, hds, hdig⟩ := natChars_cons n.toNat
      obtain ⟨g1, g2, g3⟩ := isDigit_ne_close hdig
      exact ⟨d, ds, by simp [serChars, intChars, hn, hds], g1, g2, g3⟩
  | str s =>
    exact ⟨'"', escapeChars s.data ++ ['"'], by simp [serChars], by decide, by decide, by decide⟩
  | arr xs =>
    exact ⟨'[', serElemsSep xs ++ [']'], by simp [serChars], by decide, by decide, by decide⟩
  | obj fs =>
    exact ⟨lbrace, serMembersSep fs ++ [rbrace], by simp [serChars], by decide, by decide,
      by decide⟩

theorem serElemsSep_head (x : JsonValue) (xs : List JsonValue) :
    ∃ c t, serElemsSep (x :: xs) = c :: t ∧ c ≠ ']' ∧ c ≠ rbrace ∧ c ≠ ',' := by
  obtain ⟨c, t, hct, h1, h2, h3⟩ := serChars_head x
  cases xs with
  | nil => exact ⟨c, t, by simp [serElemsSep, hct], h1, h2, h3⟩
  | cons y ys =>
    exact ⟨c, t ++ ',' :: serElemsSep (y :: ys), by simp [serElemsSep, hct], h1, h2, h3⟩

theorem parseCore_ser (fuel : Nat) :
    (∀ j rest, jsize j ≤ fuel → digitStart rest = false →
        parseCore fuel .val (serChars j ++ rest) = some (.v j, rest)) ∧
    (∀ x xs rest, jsizeL (x :: xs) ≤ fuel →
        parseCore fuel .elems (serElemsSep (x :: xs) ++ ']' :: rest)
          = some (.es (x :: xs), rest)) ∧
    (∀ k v fs rest, jsizeF ((k, v) :: fs) ≤ fuel →
        parseCore fuel .members (serMembersSep ((k, v) :: fs) ++ rbrace :: rest)
          = some (.ms ((k, v) :: fs), rest)) := by
  induction fuel with
  | zero =>
    refine ⟨?_, ?_, ?_⟩
    · intro j rest hsz _
      exact absurd hsz (by have := jsize_pos j; omega)
    · intro x xs rest hsz
      exact absurd hsz (by have := jsizeL_pos x xs; omega)
    · intro k v fs rest hsz
      exact absurd hsz (by have := jsizeF_pos k v fs; omega)
  | succ fuel ih =>
    obtain ⟨ih1, ih2, ih3⟩ := ih
    refine ⟨?_, ?_, ?_⟩
    · intro j rest hsz hrest
      cases j with
      | null =>
        simp only [serChars, List.cons_append, List.nil_append]
        rfl
      | bool b =>
        cases b <;> (simp only [serChars, List.cons_append, List.nil_append]; rfl)
      | num n =>
        simp only [serChars]
        rw [intChars]
        by_cases hn : n < 0
        · rw [if_pos hn, parseCore.eq_def]
          simp only [List.cons_append]
          simp +decide [parseNatChars_roundtrip n.natAbs rest hrest]
          rw [abs_of_neg hn, neg_neg]
        · rw [if_neg hn]
          obtain ⟨d, ds, hds, hdig⟩ := natChars_cons n.toNat
          obtain ⟨h1, h2, h3, h4, h5, h6, h7⟩ := isDigit_ne hdig
          rw [hds, parseCore.eq_def]
          simp only [List.cons_append]
          simp [h1, h2, h3, h4, h5, h6, h7, hdig]
          rw [← List.cons_append, ← hds, parseNatChars_roundtrip n.toNat rest hrest]
          have h9 : ((n.toNat : Nat) : Int) = n := Int.toNat_of_nonneg (by omega)
          simp [h9]
      | str s =>
        simp only [serChars, List.cons_append, List.append_assoc, List.cons_append,
          List.nil_append]
        rw [parseCore.eq_def]
        simp +decide [parseStrChars_roundtrip s.data rest, stringMk_data]
      | arr xs =>
        cases xs with
        | nil =>
          simp only [serChars, serElemsSep, List.cons_append, List.nil_append]
          rw [parseCore.eq_def]
          simp +decide
        | cons x xs =>
          have hsz' : jsizeL (x :: xs) ≤ fuel := by
            simp only [jsize] at hsz
            omega
          simp only [serChars, List.cons_append, List.append_assoc, List.cons_append,
            List.nil_append]
          rw [parseCore.eq_def]
          obtain ⟨c0, t0, hc0, hc0r, hc0b, hc0c⟩ := serElemsSep_head x xs
          rw [hc0]
          simp +decide [hc0r]
          rw [← List.cons_append, ← hc0, ih2 x xs rest hsz']
      | obj fs =>
        cases fs with
        | nil =>
          simp only [serChars, serMembersSep, List.cons_append, List.nil_append]
          rw [parseCore.eq_def]
          simp +decide
        | cons f fs =>
          obtain ⟨k, v⟩ := f
          have hsz' : jsizeF ((k, v) :: fs) ≤ fuel := by
            simp only [jsize] at hsz
            omega
          simp only [serChars, List.cons_append, List.append_assoc, List.cons_append,
            List.nil_append]
          rw [parseCore.eq_def]
          have hm : ∃ t, serMembersSep ((k, v) :: fs) = '"' :: t := by
            cases fs with
            | nil => exact ⟨escapeChars k.data ++ ('"' :: (':' :: serChars v)),
                by simp [serMembersSep, serMember]⟩
            | cons m t => exact ⟨escapeChars k.data ++ ('"' :: (':' :: serChars v)) ++
                  ',' :: serMembersSep (m :: t),
                by simp [serMembersSep, serMember]⟩
          obtain ⟨t0, hc0⟩ := hm
          rw [hc0]
          simp +decide
          rw [← List.cons_append, ← hc0, ih3 k v fs rest hsz']
    · intro x xs rest hsz
      rw [parseCore.eq_def]
      cases xs with
      | nil =>
        simp only [serElemsSep]
        have hx : jsize x ≤ fuel := by
          simp only [jsizeL] at hsz
          omega
        rw [ih1 x (']' :: rest) hx (by simp [digitStart])]
        simp
      | cons y ys =>
        simp only [jsizeL] at hsz
        have hx : jsize x ≤ fuel := by omega
        have hys : jsizeL (y :: ys) ≤ fuel := by
          have := jsize_pos x
          simp only [jsizeL]
          omega
        simp only [serElemsSep, List.append_assoc, List.cons_append]
        rw [ih1 x (',' :: (serElemsSep (y :: ys) ++ ']' :: rest)) hx (by simp [digitStart])]
        simp
        rw [ih2 y ys rest hys]
    · intro k v fs rest hsz
      rw [parseCore.eq_def]
      cases fs with
      | nil =>
        have hv : jsize v ≤ fuel := by
          simp only [jsizeF] at hsz
          omega
        simp only [serMembersSep, serMember, List.cons_append, List.append_assoc,
          List.nil_append]
        simp +decide
        rw [parseStrChars_roundtrip k.data (':' :: (serChars v ++ rbrace :: rest))]
        simp
        rw [ih1 v (rbrace :: rest) hv (by simp [digitStart, rbrace])]
        simp +decide [stringMk_data]
      | cons m t =>
        obtain ⟨k2, v2⟩ := m
        simp only [jsizeF] at hsz
        have hv : jsize v ≤ fuel := by omega
        have hft : jsizeF ((k2, v2) :: t) ≤ fuel := by
          have := jsize_pos v
          simp only [jsizeF]
          omega
        simp only [serMembersSep, serMember, List.cons_append, List.append_assoc,
          List.nil_append]
        simp +decide
        rw [parseStrChars_roundtrip k.data
          (':' :: (serChars v ++ ',' :: (serMembersSep ((k2, v2) :: t) ++ rbrace :: rest)))]
        simp
        rw [ih1 v (',' :: (serMembersSep ((k2, v2) :: t) ++ rbrace :: rest)) hv
          (by simp [digitStart])]
        simp +decide [stringMk_data]
        rw [ih3 k2 v2 t rest hft]

theorem intChars_ne_nil (n : Int) : intChars n ≠ [] := by
  unfold intChars
  by_cases hn : n < 0
  · simp [hn]
  · simp [hn, natChars_ne_nil]

theorem jsize_le_ser (n : Nat) :
    (∀ j, jsize j ≤ n → jsize j ≤ (serChars j).length) ∧
    (∀ l, jsizeL l ≤ n → jsizeL l ≤ (serElemsSep l).length + 1) ∧
    (∀ fs, jsizeF fs ≤ n → jsizeF fs ≤ (serMembersSep fs).length + 1) := by
  induction n with
  | zero =>
    refine ⟨?_, ?_, ?_⟩
    · intro j h
      exact absurd h (by have := jsize_pos j; omega)
    · intro l h
      omega
    · intro fs h
      omega
  | succ n ih =>
    obtain ⟨ih1, ih2, ih3⟩ := ih
    refine ⟨?_, ?_, ?_⟩
    · intro j hsz
      cases j with
      | null => simp [jsize, serChars]
      | bool b => cases b <;> simp [jsize, serChars]
      | num m =>
        have h1 := List.length_pos.mpr (intChars_ne_nil m)
        simp only [jsize, serChars]
        omega
      | str s => simp [jsize, serChars]
      | arr xs =>
        simp only [jsize, serChars] at hsz ⊢
        have := ih2 xs (by omega)
        simp
        omega
      | obj fs =>
        simp only [jsize, serChars] at hsz ⊢
        have := ih3 fs (by omega)
        simp
        omega
    · intro l hsz
      cases l with
      | nil => simp [jsizeL]
      | cons x xs =>
        simp only [jsizeL] at hsz ⊢
        cases xs with
        | nil =>
          simp only [jsizeL] at hsz ⊢
          have := ih1 x (by omega)
          simp only [serElemsSep]
          omega
        | cons y ys =>
          have hx := ih1 x (by have := jsizeL_pos y ys; omega)
          have hys := ih2 (y :: ys) (by have := jsize_pos x; omega)
          simp only [serElemsSep, List.length_append, List.length_cons]
          omega
    · intro fs hsz
      cases fs with
      | nil => simp [jsizeF]
      | cons f fs =>
        obtain ⟨k, v⟩ := f
        simp only [jsizeF] at hsz ⊢
        cases fs with
        | nil =>
          have := ih1 v (by omega)
          simp only [jsizeF] at hsz ⊢
          simp only [serMembersSep, serMember, List.length_cons, List.length_append]
          omega
        | cons m t =>
          obtain ⟨k2, v2⟩ := m
          have hv := ih1 v (by have := jsizeF_pos k2 v2 t; omega)
          have ht := ih3 ((k2, v2) :: t) (by have := jsize_pos v; omega)
          simp only [serMembersSep, serMember, List.length_cons, List.length_append]
          omega

/-- Round-trip: serializing any JSON value and re-parsing it yields the
value back. -/
theorem json_roundtrip (j : JsonValue) : parseJson (serializeJson j) = some j := by
  have hlen : jsize j ≤ (serChars j).length + 1 := by
    have := (jsize_le_ser (jsize j)).1 j le_rfl
    omega
  have h := (parseCore_ser ((serChars j).length + 1)).1 j [] hlen (by rfl)
  rw [List.append_nil] at h
  simp only [parseJson, serializeJson]
  simp [h]

/-! ## Helper lemmas about the pipeline -/

theorem validateQuery_addr {q : ContractQuery} {addr : String} {net : Network}
    (h : validateQuery q = some (addr, net)) : addr = q.address := by
  unfold validateQuery at h
  by_cases hva : validAddress q.address
  · rw [if_pos hva] at h
    cases hpn : parseNetwork q.network with
    | none => rw [hpn] at h; exact absurd h (by simp)
    | some n =>
      rw [hpn] at h
      simp at h
      exact h.1.symm
  · rw [if_neg hva] at h
    exact absurd h (by simp)

theorem getContract_invalid (w : World) (q : ContractQuery)
    (h : validAddress q.address = false) : getContract w q = (.invalidRequest, []) := by
  unfold getContract validateQuery
  rw [h]
  simp

theorem insertUnique_nodup {acc : List String} (x : String) (h : acc.Nodup) :
    (insertUnique acc x).Nodup := by
  unfold insertUnique
  by_cases hx : x ∈ acc
  · rw [if_pos hx]; exact h
  · rw [if_neg hx]
    simp [List.nodup_append, h, hx]

theorem foldl_insertUnique_nodup :
    ∀ (l acc : List String), acc.Nodup → (l.foldl insertUnique acc).Nodup := by
  intro l
  induction l with
  | nil => intro acc h; exact h
  | cons x t ih =>
    intro acc h
    exact ih (insertUnique acc x) (insertUnique_nodup x h)

theorem jsSetList_nodup (l : List String) : (jsSetList l).Nodup :=
  foldl_insertUnique_nodup l [] List.nodup_nil

theorem fetchSignature_eq_none_iff (w : World) (sel : String) :
    fetchSignature w sel = none ↔ w.fourByte sel = .notOk := by
  unfold fetchSignature
  cases h : w.fourByte sel with
  | notOk => simp
  | fetchErr => simp
  | ok results => cases hs : sortById results <;> simp [hs]

theorem fetchSignature_isSome_iff (w : World) (sel : String) :
    (fetchSignature w sel).isSome = true ↔ (w.fourByte sel).isNotOk = false := by
  cases h : w.fourByte sel with
  | notOk =>
    rw [(fetchSignature_eq_none_iff w sel).mpr h]
    simp [SigOutcome.isNotOk, h]
  | fetchErr => simp [fetchSignature, h, SigOutcome.isNotOk]
  | ok results =>
    unfold fetchSignature
    rw [h]
    cases hs : sortById results <;> simp [hs, SigOutcome.isNotOk]

theorem resolveAll_length (w : World) :
    ∀ sels : List String,
      ((sels.map (fetchSignature w)).filterMap id).length
        = (sels.filter fun s => !(w.fourByte s).isNotOk).length := by
  intro sels
  rw [List.filterMap_map]
  simp only [Function.id_comp]
  induction sels with
  | nil => simp
  | cons s t ih =>
    rw [List.filterMap_cons, List.filter_cons]
    by_cases h : (w.fourByte s).isNotOk = true
    · have hn : fetchSignature w s = none := by
        cases hfb : w.fourByte s with
        | notOk => exact (fetchSignature_eq_none_iff w s).mpr hfb
        | fetchErr => rw [hfb] at h; exact absurd h (by simp [SigOutcome.isNotOk])
        | ok results => rw [hfb] at h; exact absurd h (by simp [SigOutcome.isNotOk])
      simp [hn, h, ih]
    · have hs : (fetchSignature w s).isSome = true :=
        (fetchSignature_isSome_iff w s).mpr (by simpa using h)
      obtain ⟨d, hd⟩ := Option.isSome_iff_exists.mp hs
      simp [hd, h, ih]

theorem mem_insertById (x y : SigResult) :
    ∀ l : List SigResult, y ∈ insertById x l ↔ y = x ∨ y ∈ l := by
  intro l
  induction l with
  | nil => simp [insertById]
  | cons z t ih =>
    unfold insertById
    by_cases h : x.id ≤ z.id
    · rw [if_pos h]
      simp
    · rw [if_neg h]
      simp [ih]
      tauto

theorem sortById_eq_nil_iff (l : List SigResult) : sortById l = [] ↔ l = [] := by
  cases l with
  | nil => simp [sortById]
  | cons x t =>
    simp only [sortById]
    constructor
    · intro h
      cases ht : sortById t with
      | nil => rw [ht] at h; exact absurd h (by simp [insertById])
      | cons z zs =>
        rw [ht] at h
        unfold insertById at h
        by_cases hc : x.id ≤ z.id
        · rw [if_pos hc] at h; exact absurd h (by simp)
        · rw [if_neg hc] at h; exact absurd h (by simp)
    · intro h
      exact absurd h (by simp)

theorem sortById_head_min :
    ∀ (l : List SigResult) (b : SigResult) (t : List SigResult),
      sortById l = b :: t → b ∈ l ∧ ∀ r ∈ l, b.id ≤ r.id := by
  intro l
  induction l with
  | nil => intro b t h; exact absurd h (by simp [sortById])
  | cons x xs ih =>
    intro b t h
    simp only [sortById] at h
    cases hxs : sortById xs with
    | nil =>
      have hnil : xs = [] := (sortById_eq_nil_iff xs).mp hxs
      rw [hxs] at h
      unfold insertById at h
      simp at h
      subst hnil
      simp [h.1]
    | cons y ys =>
      obtain ⟨hymem, hymin⟩ := ih y ys hxs
      rw [hxs] at h
      unfold insertById at h
      by_cases hc : x.id ≤ y.id
      · rw [if_pos hc] at h
        simp at h
        obtain ⟨rfl, -⟩ := h
        refine ⟨List.mem_cons_self x xs, ?_⟩
        intro r hr
        rcases List.mem_cons.mp hr with rfl | hr2
        · exact le_refl _
        · exact le_trans hc (hymin r hr2)
      · rw [if_neg hc] at h
        simp at h
        obtain ⟨rfl, -⟩ := h
        refine ⟨List.mem_cons_of_mem x hymem, ?_⟩
        intro r hr
        rcases List.mem_cons.mp hr with rfl | hr2
        · omega
        · exact hymin r hr2

/-- The full proxy-substitution success chain of the enrichment block:
source metadata flags a proxy with a populated implementation, and the
implementation's ABI fetch, status, and JSON parse all succeed. -/
def proxySucceeds (w : World) (address : String) : Prop :=
  ∃ entry tail imsg ires implAbi,
    w.sourceApi address = .ok "1" (entry :: tail) ∧ entry.Proxy = "1" ∧
    entry.Implementation ≠ "" ∧
    w.abiApi entry.Implementation = .ok "1" imsg ires ∧ ires ≠ "" ∧
    parseJson ires = some implAbi

/-- The `getsourcecode` call fails to produce a usable entry: network
error, non-OK status, bad JSON, non-success status field, or an empty
result array. -/
def sourceCallFails (w : World) (address : String) : Prop :=
  ∀ entry tail, w.sourceApi address ≠ .ok "1" (entry :: tail)

theorem enrich_abi_of_not_proxy (w : World) (addr : String) (abi0 : JsonValue)
    (h : ¬ proxySucceeds w addr) : (enrich w addr abi0).1.2 = abi0 := by
  unfold enrich
  cases hs : w.sourceApi addr with
  | fetchErr => rfl
  | notOk => rfl
  | badJson => rfl
  | ok status result =>
    cases result with
    | nil => rfl
    | cons entry tail =>
      by_cases h1 : status = "1"
      case neg => simp [h1]
      subst h1
      by_cases h2 : entry.Proxy = "1" ∧ entry.Implementation ≠ ""
      case neg => simp [h2]
      cases hi : w.abiApi entry.Implementation with
      | fetchErr => simp [h2, hi]
      | notOk => simp [h2, hi]
      | badJson => simp [h2, hi]
      | ok istatus imsg ires =>
        by_cases h3 : istatus = "1" ∧ ires ≠ ""
        case neg => simp [h2, hi, h3]
        cases hp : parseJson ires with
        | none => simp [h2, hi, h3, hp]
        | some implAbi =>
          exfalso
          refine h ⟨entry, tail, imsg, ires, implAbi, hs, h2.1, h2.2, ?_, h3.2, hp⟩
          rw [← h3.1]
          exact hi

theorem enrich_name_of_fail (w : World) (addr : String) (abi0 : JsonValue)
    (h : sourceCallFails w addr) : (enrich w addr abi0).1.1 = "Unknown Contract" := by
  unfold enrich
  cases hs : w.sourceApi addr with
  | fetchErr => rfl
  | notOk => rfl
  | badJson => rfl
  | ok status result =>
    cases result with
    | nil => rfl
    | cons entry tail =>
      by_cases h1 : status = "1"
      case neg => simp [h1]
      subst h1
      exact absurd hs (h entry tail)

theorem enrich_proxy_success (w : World) (addr : String) (abi0 : JsonValue)
    (entry : SourceCodeEntry) (tail : List SourceCodeEntry)
    (hs : w.sourceApi addr = .ok "1" (entry :: tail))
    (hpx : entry.Proxy = "1") (him : entry.Implementation ≠ "")
    (imsg ires : String) (hi : w.abiApi entry.Implementation = .ok "1" imsg ires)
    (hires : ires ≠ "") (implAbi : JsonValue) (hp : parseJson ires = some implAbi) :
    (enrich w addr abi0).1 =
      ((if entry.ContractName = "" then "Unknown Contract" else entry.ContractName)
        ++ " (Proxy)", implAbi) := by
  unfold enrich
  rw [hs]
  simp [hpx, him, hi, hires, hp]

theorem attemptVerified_some (w : World) (addr : String) (msg r : String)
    (habi : w.abiApi addr = .ok "1" msg r) (hr : r ≠ "") (abi0 : JsonValue)
    (hp : parseJson r = some abi0) :
    (attemptVerified w addr).1 = some
      { address := addr
        name := (enrich w addr abi0).1.1
        abi := .json (enrich w addr abi0).1.2
        isVerified := true
        isRecovered := none } := by
  unfold attemptVerified
  rw [habi]
  simp [hr, hp]

theorem getContract_success (w : World) (q : ContractQuery) (addr : String)
    (net : Network) (d : SuccessData) (hv : validateQuery q = some (addr, net))
    (hav : (attemptVerified w addr).1 = some d) :
    (getContract w q).1 = .success d := by
  unfold getContract
  rw [hv]
  rcases hA : attemptVerified w addr with ⟨o, log⟩
  rw [hA] at hav
  simp only at hav
  subst hav
  simp [hA]

theorem attemptVerified_addr (w : World) (a : String) (d : SuccessData)
    (h : (attemptVerified w a).1 = some d) : d.address = a := by
  unfold attemptVerified at h
  cases ha : w.abiApi a with
  | fetchErr => rw [ha] at h; exact absurd h (by simp)
  | notOk => rw [ha] at h; exact absurd h (by simp)
  | badJson => rw [ha] at h; exact absurd h (by simp)
  | ok status msg result =>
    rw [ha] at h
    simp only at h
    by_cases h1 : status = "1" ∧ result ≠ ""
    · rw [if_pos h1] at h
      cases hp : parseJson result with
      | none => rw [hp] at h; exact absurd h (by simp)
      | some abi0 =>
        rw [hp] at h
        simp only at h
        injection h with h
        rw [← h]
    · rw [if_neg h1] at h
      exact absurd h (by simp)

theorem attemptRecovery_addr (w : World) (a : String) (d : SuccessData)
    (h : (attemptRecovery w a).1 = some d) : d.address = a := by
  unfold attemptRecovery at h
  cases ha : w.rpc a with
  | fetchErr => rw [ha] at h; exact absurd h (by simp)
  | ok bytecodeOpt =>
    rw [ha] at h
    cases bytecodeOpt with
    | none => exact absurd h (by simp)
    | some bytecode =>
      simp only at h
      by_cases h1 : bytecode = "" ∨ bytecode = "0x"
      · rw [if_pos h1] at h
        exact absurd h (by simp)
      · rw [if_neg h1] at h
        by_cases h2 : (extractSelectors bytecode).isEmpty
        · rw [if_pos h2] at h
          exact absurd h (by simp)
        · rw [if_neg h2] at h
          simp only at h
          injection h with h
          rw [← h]

/-! ## Concrete requests and worlds used by witnesses and counterexamples -/

/-- A valid lowercase request address (40 hex digits). -/
def aAddr : String := "0xaaaaaaaaaaaaaaaaaaaaaaaaaaaaaaaaaaaaaaaa"

/-- An uppercase-cased request address (40 hex digits). -/
def upperAddr : String := "0xAAAAAAAAAAAAAAAAAAAAAAAAAAAAAAAAAAAAAAAA"

/-- An implementation-contract address distinct from `aAddr`. -/
def bAddr : String := "0xbbbbbbbbbbbbbbbbbbbbbbbbbbbbbbbbbbbbbbbb"

/-- The standing request query for the concrete runs. -/
def qA : ContractQuery := { address := aAddr, network := none }

/-- A world where every external call fails at the network level. -/
def wAllFail : World :=
  { abiApi := fun _ => .fetchErr
    sourceApi := fun _ => .fetchErr
    rpc := fun _ => .fetchErr
    fourByte := fun _ => .fetchErr }

/-- Bytecode containing ten distinct lowercase push-4 selector patterns. -/
def bytecode10 : String :=
  "0x630000000163000000026300000003630000000463000000056300000006630000000763000000086300000009630000000a"

/-- A world where the explorer fails, the bytecode has ten selectors, and
the registry answers three of them with a non-success HTTP response and
the other seven with two candidates (ids 7 and 3). -/
def wC1 : World :=
  { abiApi := fun _ => .fetchErr
    sourceApi := fun _ => .fetchErr
    rpc := fun _ => .ok (some bytecode10)
    fourByte := fun sel =>
      if sel = "0x00000001" ∨ sel = "0x00000002" ∨ sel = "0x00000003" then .notOk
      else .ok [{ id := 7, text_signature := "baz(uint256,address)" },
        { id := 3, text_signature := "foo()" }] }

/-- Like `wC1`, but the three failing lookups fail by rejected fetch
(network error) instead of a non-success HTTP response. -/
def wC1b : World :=
  { abiApi := fun _ => .fetchErr
    sourceApi := fun _ => .fetchErr
    rpc := fun _ => .ok (some bytecode10)
    fourByte := fun sel =>
      if sel = "0x00000001" ∨ sel = "0x00000002" ∨ sel = "0x00000003" then .fetchErr
      else .ok [{ id := 7, text_signature := "baz(uint256,address)" },
        { id := 3, text_signature := "foo()" }] }

/-- The recovered-descriptor list of a response, when it is a
recovery-tier success. -/
def recoveredList : ContractResponse → Option (List FunctionDescriptor)
  | .success d =>
    match d.abi with
    | .recovered l => some l
    | .json _ => none
  | _ => none

/-! ## The claims -/

/-- C1 counterexample: with 10 distinct selectors of which 3 lookups fail
by a non-success registry HTTP response, the recovery result has only 7
descriptors, not one per input selector as claimed — the non-OK lookups
return null and are filtered out — although recovery is still reported
successful. -/
theorem c1_counterexample :
    (getContract wC1 qA).1.successFlag = true ∧
    (getContract wC1 qA).1.httpStatus = 200 ∧
    Option.map List.length (recoveredList (getContract wC1 qA).1) = some 7 ∧
    some (7 : Nat) ≠ some 10 := by
  refine ⟨rfl, rfl, rfl, by decide⟩

/-- C1 amended: `resolveAll` returns exactly one descriptor per selector
whose registry HTTP response is not a non-success response; a selector
whose lookup returns a non-success HTTP response yields `null` and is
dropped from the result.  `fetchSignature` returns no descriptor exactly
for the non-success responses; every other failure (network error, zero
matches, unparsable text) degrades to a placeholder.  For 10 distinct
selectors where 3 lookups fail by network error, the result has exactly
10 descriptors — 3 placeholders, 7 resolved — and recovery is reported
successful. -/
theorem c1_amended :
    (∀ (w : World) (sels : List String),
      ((sels.map (fetchSignature w)).filterMap id).length
        = (sels.filter fun s => !(w.fourByte s).isNotOk).length) ∧
    (∀ (w : World) (sel : String),
      fetchSignature w sel = none ↔ w.fourByte sel = .notOk) ∧
    (getContract wC1b qA).1.successFlag = true ∧
    (getContract wC1b qA).1.httpStatus = 200 ∧
    recoveredList (getContract wC1b qA).1 = some
      [placeholderDescriptor "0x00000001", placeholderDescriptor "0x00000002",
       placeholderDescriptor "0x00000003",
       descriptorFromText "0x00000004" "foo()", descriptorFromText "0x00000005" "foo()",
       descriptorFromText "0x00000006" "foo()", descriptorFromText "0x00000007" "foo()",
       descriptorFromText "0x00000008" "foo()", descriptorFromText "0x00000009" "foo()",
       descriptorFromText "0x0000000a" "foo()"] := by
  exact ⟨resolveAll_length, fetchSignature_eq_none_iff, rfl, rfl, rfl⟩

/-- C2 counterexample: the same 4-byte immediate `AABBCCDD` written in two
different casings at two offsets yields two distinct selectors, neither
canonicalized to lowercase — extraction preserves the bytecode's casing
and deduplicates only exact string matches. -/
theorem c2_counterexample :
    extractSelectors "0x63AABBCCDD63aabbccdd" = ["0xAABBCCDD", "0xaabbccdd"] ∧
    (["0xAABBCCDD", "0xaabbccdd"] : List String).length ≠ 1 ∧
    ("0xAABBCCDD" : String) ≠ "0xaabbccdd" := by
  refine ⟨rfl, by decide, by decide⟩

/-- C2 amended: the extracted working set is deduplicated by exact string
equality (a true set), and when the push-4 opcode is followed by the same
4-byte immediate in the same casing at two distinct offsets, exactly one
selector is returned, with the casing found in the bytecode (lowercase
bytecode gives `0xaabbccdd`). -/
theorem c2_amended :
    (∀ b : String, (extractSelectors b).Nodup) ∧
    extractSelectors "0x63aabbccdd63aabbccdd" = ["0xaabbccdd"] ∧
    extractSelectors "0x63AABBCCDD63AABBCCDD" = ["0xAABBCCDD"] := by
  exact ⟨fun b => jsSetList_nodup _, rfl, rfl⟩

/-- The address shape stated by the (amended) specification: the fixed
prefix `0x` followed by exactly 40 hex digits of either case. -/
def matchesAddressPattern (s : String) : Prop :=
  ∃ core : List Char, s.data = '0' :: 'x' :: core ∧ core.length = 40 ∧
    ∀ c ∈ core, (c.isDigit = true ∨ ('a' ≤ c ∧ c ≤ 'f') ∨ ('A' ≤ c ∧ c ≤ 'F'))

theorem isHexDigitAnyCase_iff (c : Char) :
    isHexDigitAnyCase c = true ↔
      (c.isDigit = true ∨ ('a' ≤ c ∧ c ≤ 'f') ∨ ('A' ≤ c ∧ c ≤ 'F')) := by
  simp [isHexDigitAnyCase, Bool.or_eq_true, Bool.and_eq_true, decide_eq_true_iff, or_assoc]

/-- C3 counterexample: an all-uppercase address passes validation (the
regex class is `[a-fA-F0-9]`), is processed by the pipeline rather than
rejected, and is not in lowercase canonical form. -/
theorem c3_counterexample :
    validAddress upperAddr = true ∧
    upperAddr.data.any Char.isUpper = true ∧
    (getContract wAllFail { address := upperAddr, network := none }).1 = .requireManualAbi ∧
    ContractResponse.requireManualAbi ≠ ContractResponse.invalidRequest := by
  refine ⟨rfl, rfl, rfl, by simp⟩

/-- C3 amended: validation accepts exactly the strings made of the `0x`
prefix and 40 hex digits **of either case** (uppercase is accepted too),
and every non-conforming address string is rejected with the
validation-error response before anything else happens. -/
theorem c3_amended :
    (∀ s : String, validAddress s = true ↔ matchesAddressPattern s) ∧
    (∀ (w : World) (q : ContractQuery), ¬ matchesAddressPattern q.address →
      getContract w q = (.invalidRequest, [])) := by
  have hiff : ∀ s : String, validAddress s = true ↔ matchesAddressPattern s := by
    intro s
    unfold validAddress matchesAddressPattern
    rcases hd : s.data with - | ⟨a, - | ⟨b, core⟩⟩
    · simp [validAddressChars, hd]
    · simp [validAddressChars, hd]
    · simp only [validAddressChars, Bool.and_eq_true, decide_eq_true_iff,
        List.all_eq_true, List.cons.injEq]
      constructor
      · rintro ⟨⟨⟨ha, hb⟩, hlen⟩, hall⟩
        exact ⟨core, ⟨ha, hb, rfl⟩, hlen,
          fun c hc => (isHexDigitAnyCase_iff c).mp (hall c hc)⟩
      · rintro ⟨core2, ⟨ha, hb, rfl⟩, hlen, hall⟩
        exact ⟨⟨⟨ha, hb⟩, hlen⟩, fun c hc => (isHexDigitAnyCase_iff c).mpr (hall c hc)⟩
  refine ⟨hiff, ?_⟩
  intro w q h
  refine getContract_invalid w q ?_
  cases hb : validAddress q.address with
  | false => rfl
  | true => exact absurd ((hiff q.address).mp hb) h

/-- C3 amended, witnessed at a malformed address: the request is rejected
as a validation error with no network calls. -/
theorem c3_amended_witness :
    getContract wAllFail { address := "nope", network := none } = (.invalidRequest, []) := by
  refine c3_amended.2 wAllFail { address := "nope", network := none } ?_
  rintro ⟨core, hdata, -, -⟩
  rw [show ("nope" : String).data = ['n', 'o', 'p', 'e'] from rfl] at hdata
  simp +decide at hdata

/-- C4: when the source metadata flags a proxy with a populated
implementation address and the implementation ABI fetch, status and JSON
parse succeed, the 200 response carries the implementation's ABI in place
of the proxy's own, and the display name ends in the proxy marker
suffix. -/
theorem c4_proxy_replacement (w : World) (q : ContractQuery) (addr : String) (net : Network)
    (hv : validateQuery q = some (addr, net))
    (msg r : String) (habi : w.abiApi addr = .ok "1" msg r) (hr : r ≠ "")
    (abi0 : JsonValue) (hp : parseJson r = some abi0)
    (entry : SourceCodeEntry) (tail : List SourceCodeEntry)
    (hsrc : w.sourceApi addr = .ok "1" (entry :: tail))
    (hpx : entry.Proxy = "1") (him : entry.Implementation ≠ "")
    (imsg ires : String) (hiapi : w.abiApi entry.Implementation = .ok "1" imsg ires)
    (hires : ires ≠ "") (implAbi : JsonValue) (hip : parseJson ires = some implAbi) :
    ∃ d, (getContract w q).1 = .success d ∧ d.abi = .json implAbi ∧
      (∃ p, d.name = p ++ " (Proxy)") ∧ d.isVerified = true := by
  have he := enrich_proxy_success w addr abi0 entry tail hsrc hpx him imsg ires hiapi hires
    implAbi hip
  have ha := attemptVerified_some w addr msg r habi hr abi0 hp
  have hg := getContract_success w q addr net _ hv ha
  refine ⟨_, hg, ?_, ?_, rfl⟩
  · show AbiPayload.json (enrich w addr abi0).1.2 = .json implAbi
    rw [he]
  · refine ⟨if entry.ContractName = "" then "Unknown Contract" else entry.ContractName, ?_⟩
    show (enrich w addr abi0).1.1 = _
    rw [he]

/-- The proxy metadata entry used by the C4 witness. -/
def proxyEntry : SourceCodeEntry :=
  { ContractName := "MyToken", Proxy := "1", Implementation := bAddr }

/-- The world for the C4 witness: the queried address is a verified proxy
whose implementation at `bAddr` has ABI JSON `[true]`. -/
def wProxy : World :=
  { abiApi := fun a => if a = bAddr then .ok "1" "OK" "[true]" else .ok "1" "OK" "[]"
    sourceApi := fun _ => .ok "1" [proxyEntry]
    rpc := fun _ => .fetchErr
    fourByte := fun _ => .fetchErr }

/-- C4 witnessed on a concrete proxy world: the response carries the
implementation's ABI and a proxy-marked name. -/
theorem c4_witness :
    ∃ d, (getContract wProxy qA).1 = .success d ∧ d.abi = .json (.arr [.bool true]) ∧
      (∃ p, d.name = p ++ " (Proxy)") ∧ d.isVerified = true := by
  refine c4_proxy_replacement wProxy qA aAddr .mainnet rfl "OK" "[]" (by decide) (by decide)
    (.arr []) rfl proxyEntry [] (by decide) (by decide) (by decide) "OK" "[true]"
    (by decide) (by decide) (.arr [.bool true]) ?_
  show parseJson "[true]" = some (.arr [.bool true])
  rfl

/-- C5: when Tier 1 has failed and the RPC bytecode is absent or the
empty-code sentinel `0x`, the handler answers 404 with `success` false
and the stable code `REQUIRE_MANUAL_ABI`. -/
theorem c5_no_bytecode_404 (w : World) (q : ContractQuery) (addr : String) (net : Network)
    (hv : validateQuery q = some (addr, net))
    (ht1 : (attemptVerified w addr).1 = none)
    (hrpc : w.rpc addr = .ok none ∨ w.rpc addr = .ok (some "0x")) :
    (getContract w q).1 = .requireManualAbi ∧
    (getContract w q).1.httpStatus = 404 ∧
    (getContract w q).1.successFlag = false ∧
    (getContract w q).1.errorCode = some "REQUIRE_MANUAL_ABI" := by
  have hrec : (attemptRecovery w addr).1 = none := by
    unfold attemptRecovery
    rcases hrpc with h | h <;> simp [h]
  have hmain : (getContract w q).1 = .requireManualAbi := by
    unfold getContract
    rw [hv]
    rcases hA : attemptVerified w addr with ⟨o, log1⟩
    rw [hA] at ht1
    simp only at ht1
    subst ht1
    rcases hR : attemptRecovery w addr with ⟨o2, log2⟩
    rw [hR] at hrec
    simp only at hrec
    subst hrec
    simp [hA, hR]
  exact ⟨hmain, by rw [hmain]; rfl, by rw [hmain]; rfl, by rw [hmain]; rfl⟩

/-- The world for the C5 witness: explorer down, RPC reports no code. -/
def wC5 : World :=
  { abiApi := fun _ => .fetchErr
    sourceApi := fun _ => .fetchErr
    rpc := fun _ => .ok none
    fourByte := fun _ => .fetchErr }

/-- C5 witnessed: both tiers exhausted on absent bytecode gives the
404 `REQUIRE_MANUAL_ABI` response. -/
theorem c5_witness :
    (getContract wC5 qA).1 = .requireManualAbi ∧
    (getContract wC5 qA).1.httpStatus = 404 ∧
    (getContract wC5 qA).1.successFlag = false ∧
    (getContract wC5 qA).1.errorCode = some "REQUIRE_MANUAL_ABI" :=
  c5_no_bytecode_404 wC5 qA aAddr .mainnet rfl rfl (Or.inl rfl)

/-- C6: when the registry returns a nonempty candidate list, the chosen
text is that of a candidate whose identifier is minimal among all
candidates. -/
theorem c6_lowest_id (w : World) (sel : String) (results : List SigResult)
    (h : w.fourByte sel = .ok results) (hne : results ≠ []) :
    ∃ best, best ∈ results ∧ (∀ r ∈ results, best.id ≤ r.id) ∧
      fetchSignature w sel = some (descriptorFromText sel best.text_signature) := by
  cases hs : sortById results with
  | nil => exact absurd ((sortById_eq_nil_iff results).mp hs) hne
  | cons best t =>
    obtain ⟨hmem, hmin⟩ := sortById_head_min results best t hs
    refine ⟨best, hmem, hmin, ?_⟩
    unfold fetchSignature
    rw [h]
    simp only [hs]

/-- The world for the C6 witness: one selector with candidates of
identifiers 5 and 2. -/
def wC6 : World :=
  { abiApi := fun _ => .fetchErr
    sourceApi := fun _ => .fetchErr
    rpc := fun _ => .fetchErr
    fourByte := fun _ => .ok [{ id := 5, text_signature := "foo()" },
      { id := 2, text_signature := "bar(address)" }] }

/-- C6 witnessed: of candidates with identifiers 5 and 2 the id-2
candidate's text `bar(address)` is selected and parsed. -/
theorem c6_witness :
    (∃ best, best ∈ [({ id := 5, text_signature := "foo()" } : SigResult),
        { id := 2, text_signature := "bar(address)" }] ∧
      (∀ r ∈ [({ id := 5, text_signature := "foo()" } : SigResult),
        { id := 2, text_signature := "bar(address)" }], best.id ≤ r.id) ∧
      fetchSignature wC6 "0x01020304" =
        some (descriptorFromText "0x01020304" best.text_signature)) ∧
    fetchSignature wC6 "0x01020304" =
      some (descriptorFromText "0x01020304" "bar(address)") ∧
    (descriptorFromText "0x01020304" "bar(address)").name = "bar" := by
  refine ⟨c6_lowest_id wC6 "0x01020304" _ rfl (by simp), rfl, rfl⟩

/-- C7: once the verified ABI is obtained, the enrichment path is
best-effort — whatever the source-code/proxy lookups do, the response is
a 200 success with `isVerified` true; when the proxy-substitution chain
does not fully succeed the verified ABI is retained unchanged, and when
the source call fails the name degrades to the generic placeholder. -/
theorem c7_enrichment_best_effort (w : World) (q : ContractQuery) (addr : String)
    (net : Network) (hv : validateQuery q = some (addr, net))
    (msg r : String) (habi : w.abiApi addr = .ok "1" msg r) (hr : r ≠ "")
    (abi0 : JsonValue) (hp : parseJson r = some abi0) :
    ∃ d, (getContract w q).1 = .success d ∧ d.isVerified = true ∧
      (getContract w q).1.httpStatus = 200 ∧ (getContract w q).1.successFlag = true ∧
      (¬ proxySucceeds w addr → d.abi = .json abi0) ∧
      (sourceCallFails w addr → d.name = "Unknown Contract") := by
  have ha := attemptVerified_some w addr msg r habi hr abi0 hp
  have hg := getContract_success w q addr net _ hv ha
  refine ⟨_, hg, rfl, by rw [hg]; rfl, by rw [hg]; rfl, ?_, ?_⟩
  · intro hnp
    show AbiPayload.json (enrich w addr abi0).1.2 = .json abi0
    rw [enrich_abi_of_not_proxy w addr abi0 hnp]
  · intro hsf
    exact enrich_name_of_fail w addr abi0 hsf

/-- The world for the C7 witness: verified ABI `[]` obtained, but the
source-code call rejects at the network level. -/
def wC7 : World :=
  { abiApi := fun _ => .ok "1" "OK" "[]"
    sourceApi := fun _ => .fetchErr
    rpc := fun _ => .fetchErr
    fourByte := fun _ => .fetchErr }

/-- C7 witnessed: a failing enrichment call still yields a 200 success
carrying the verified ABI and the degraded generic name. -/
theorem c7_witness :
    ∃ d, (getContract wC7 qA).1 = .success d ∧ d.isVerified = true ∧
      (getContract wC7 qA).1.httpStatus = 200 ∧ (getContract wC7 qA).1.successFlag = true ∧
      (¬ proxySucceeds wC7 aAddr → d.abi = .json (.arr [])) ∧
      (sourceCallFails wC7 aAddr → d.name = "Unknown Contract") :=
  c7_enrichment_best_effort wC7 qA aAddr .mainnet rfl "OK" "[]" rfl (by decide)
    (.arr []) rfl

/-- C8: a successful explorer status with valid ABI JSON and no proxy
flag yields a 200 response with `isVerified` true whose `abi` is exactly
the parsed JSON, and re-serializing that ABI and re-parsing it yields the
same value (round-trip). -/
theorem c8_verified_roundtrip (w : World) (q : ContractQuery) (addr : String)
    (net : Network) (hv : validateQuery q = some (addr, net))
    (msg r : String) (habi : w.abiApi addr = .ok "1" msg r) (hr : r ≠ "")
    (abi0 : JsonValue) (hp : parseJson r = some abi0)
    (hnoproxy : ∀ entry tail, w.sourceApi addr = .ok "1" (entry :: tail) →
      entry.Proxy ≠ "1") :
    ∃ d, (getContract w q).1 = .success d ∧ d.isVerified = true ∧
      d.abi = .json abi0 ∧ parseJson (serializeJson abi0) = some abi0 := by
  have hnp : ¬ proxySucceeds w addr := by
    rintro ⟨entry, tail, imsg, ires, implAbi, hsrc, hpx, -, -, -, -⟩
    exact hnoproxy entry tail hsrc hpx
  have ha := attemptVerified_some w addr msg r habi hr abi0 hp
  have hg := getContract_success w q addr net _ hv ha
  refine ⟨_, hg, rfl, ?_, json_roundtrip abi0⟩
  show AbiPayload.json (enrich w addr abi0).1.2 = .json abi0
  rw [enrich_abi_of_not_proxy w addr abi0 hnp]

/-- C8 witnessed with the ABI JSON `[]` and a failing source call (hence
no proxy flag): the response carries exactly the parsed ABI and the
round-trip holds. -/
theorem c8_witness :
    ∃ d, (getContract wC7 qA).1 = .success d ∧ d.isVerified = true ∧
      d.abi = .json (.arr []) ∧ parseJson (serializeJson (.arr [])) = some (.arr []) := by
  refine c8_verified_roundtrip wC7 qA aAddr .mainnet rfl "OK" "[]" rfl (by decide)
    (.arr []) rfl ?_
  intro entry tail h
  exact absurd h (by simp [wC7])

/-- C9: a request whose address fails the 40-hex-digit pattern is
answered with the 400 validation response — `success` false, error
"Invalid request" — and the network-call log is empty: no explorer, RPC,
or registry request is issued. -/
theorem c9_reject_before_network (w : World) (q : ContractQuery)
    (h : validAddress q.address = false) :
    getContract w q = (.invalidRequest, []) ∧
    (getContract w q).1.httpStatus = 400 ∧
    (getContract w q).1.successFlag = false ∧
    (getContract w q).1.errorMessage = some "Invalid request" ∧
    (getContract w q).2 = [] := by
  have hg := getContract_invalid w q h
  exact ⟨hg, by rw [hg]; rfl, by rw [hg]; rfl, by rw [hg]; rfl, by rw [hg]⟩

/-- C9 witnessed on a malformed address: 400, no calls issued. -/
theorem c9_witness :
    getContract wAllFail { address := "0xzz", network := none } = (.invalidRequest, []) ∧
    (getContract wAllFail { address := "0xzz", network := none }).1.httpStatus = 400 ∧
    (getContract wAllFail { address := "0xzz", network := none }).1.successFlag = false ∧
    (getContract wAllFail { address := "0xzz", network := none }).1.errorMessage =
      some "Invalid request" ∧
    (getContract wAllFail { address := "0xzz", network := none }).2 = [] :=
  c9_reject_before_network wAllFail { address := "0xzz", network := none } rfl

/-- C10: every success response, from either tier, carries the
caller-supplied address string verbatim — no lowercasing or any other
normalization happens between validation and the response. -/
theorem c10_address_verbatim (w : World) (q : ContractQuery) (d : SuccessData)
    (log : List NetCall) (h : getContract w q = (.success d, log)) :
    d.address = q.address := by
  unfold getContract at h
  cases hv : validateQuery q with
  | none =>
    rw [hv] at h
    exact absurd h (by simp)
  | some p =>
    obtain ⟨addr, net⟩ := p
    rw [hv] at h
    simp only at h
    have haddr : addr = q.address := validateQuery_addr hv
    rcases hA : attemptVerified w addr with ⟨o, log1⟩
    rw [hA] at h
    cases o with
    | some data =>
      simp only at h
      have h1 : data = d := by
        injection h with h1 h2
        injection h1 with h1
      subst h1
      rw [← haddr]
      refine attemptVerified_addr w addr data ?_
      rw [hA]
    | none =>
      rcases hR : attemptRecovery w addr with ⟨o2, log2⟩
      rw [hR] at h
      cases o2 with
      | some data =>
        simp only at h
        have h1 : data = d := by
          injection h with h1 h2
          injection h1 with h1
        subst h1
        rw [← haddr]
        refine attemptRecovery_addr w addr data ?_
        rw [hR]
      | none =>
        simp only at h
        injection h with h1 h2
        exact absurd h1 (by simp)

/-- The `address` field of a success response body, when present. -/
def responseAddress : ContractResponse → Option String
  | .success d => some d.address
  | _ => none

/-- C10 witnessed: the uppercase-cased input address is echoed verbatim
in the success response of the recovery tier. -/
theorem c10_witness :
    responseAddress (getContract wC1 { address := upperAddr, network := none }).1 =
      some upperAddr := by
  rcases hx : getContract wC1 { address := upperAddr, network := none } with ⟨resp, log⟩
  have hflag : (getContract wC1 { address := upperAddr, network := none }).1.successFlag
      = true := rfl
  rw [hx] at hflag
  cases resp with
  | success d =>
    simp only [responseAddress]
    rw [c10_address_verbatim wC1 { address := upperAddr, network := none } d log hx]
  | invalidRequest => exact absurd hflag (by simp [ContractResponse.successFlag])
  | requireManualAbi => exact absurd hflag (by simp [ContractResponse.successFlag])
  | internalError m => exact absurd hflag (by simp [ContractResponse.successFlag])
